import Mathlib

/-!
# Verification of the TCP sliding-window project (sender/receiver engines)

Shallow embedding of the protocol state machines of `client.py`,
`server.py` and `server_fixed.py`.  Python integers are modelled as `Int`
(sequence numbers may in principle go negative through `ack_num - 1`),
counters as `Nat`, Python `set`s as `Finset Int`, the retransmission
deque as a `List (Int × Int)` (append at the tail, pop at the head), and
the `defaultdict(int)` counters as functions `Int → Nat`.  The calls to
`random.random() < drop_probability` are modelled by passing the boolean
outcome of each draw explicitly, so runs are deterministic functions of
the drop outcomes.  Exact rational arithmetic (`ℚ`) stands in for
Python's float division in the goodput computations.
-/

namespace TCPSlidingWindow

/-! ## Sender engine state (`client.py`, `TCPClient`) -/

/-- The mutable state of `TCPClient` (the fields touched by the protocol
logic; sockets, logging and the visualization time series are omitted).
`total_packets` and `retransmit_after` are the configuration attributes
set in `__init__`. -/
structure Client where
  window_size : Nat
  base : Int
  next_seq_num : Int
  sent_packets : Finset Int
  acked_packets : Finset Int
  dropped_packets : Finset Int
  packets_to_retransmit : List (Int × Int)
  total_sent : Nat
  total_dropped : Nat
  total_retransmitted : Nat
  retransmission_counts : Int → Nat
  total_packets : Nat
  retransmit_after : Nat

/-- `TCPClient.__init__`: all tracking state empty, `base = next_seq_num = 0`,
counters zero; window size, total packet count and retransmission delay
come from the constructor arguments. -/
def Client.init (window_size total_packets retransmit_after : Nat) : Client :=
  { window_size := window_size
    base := 0
    next_seq_num := 0
    sent_packets := ∅
    acked_packets := ∅
    dropped_packets := ∅
    packets_to_retransmit := []
    total_sent := 0
    total_dropped := 0
    total_retransmitted := 0
    retransmission_counts := fun _ => 0
    total_packets := total_packets
    retransmit_after := retransmit_after }

/-- `TCPClient.send_packet(seq_num)`, with the outcome of
`random.random() < self.drop_probability` passed in as `shouldDrop`.
On a drop the packet is recorded dropped and scheduled for retransmission
at `next_seq_num + retransmit_after` (captured at drop time); otherwise it
is sent and `total_sent` is incremented. -/
def Client.send_packet (s : Client) (seq_num : Int) (shouldDrop : Bool) : Client :=
  if shouldDrop then
    { s with dropped_packets := insert seq_num s.dropped_packets
             total_dropped := s.total_dropped + 1
             packets_to_retransmit :=
               s.packets_to_retransmit ++ [(seq_num, s.next_seq_num + s.retransmit_after)] }
  else
    { s with sent_packets := insert seq_num s.sent_packets
             total_sent := s.total_sent + 1 }

/-- One iteration of the body of the sending loop in `TCPClient.start`
(lines 146–149): if the window is open and not all packets have been
admitted yet, send the packet at `next_seq_num` and advance it. -/
def Client.admit_next (s : Client) (shouldDrop : Bool) : Client :=
  if s.next_seq_num < s.base + (s.window_size : Int) ∧
     s.next_seq_num < (s.total_packets : Int) then
    { s.send_packet s.next_seq_num shouldDrop with next_seq_num := s.next_seq_num + 1 }
  else s

/-- The body iterations of the
`while self.base in self.acked_packets and self.base < self.next_seq_num`
loop of `TCPClient.receive_acks`, with an explicit iteration budget:
each pass re-tests the guard and advances `base` by one. -/
def advance_base_iter (acked : Finset Int) (next : Int) : Nat → Int → Int
  | 0, base => base
  | fuel + 1, base =>
    if base ∈ acked ∧ base < next then advance_base_iter acked next fuel (base + 1)
    else base

/-- The `while self.base in self.acked_packets and self.base < self.next_seq_num`
loop of `TCPClient.receive_acks`, advancing `base` past consecutively
acknowledged sequence numbers.  A budget of `(next - base).toNat`
iterations is exact: the guard requires `base < next` and every
iteration moves `base` up by one, so the loop makes at most that many
passes and the budget runs out only at `base = next`, where the guard is
false anyway. -/
def advance_base (acked : Finset Int) (next : Int) (base : Int) : Int :=
  advance_base_iter acked next (next - base).toNat base

/-- The acknowledgment-processing step of `TCPClient.receive_acks`
(lines 228–248) for one received `ack_num`: the acknowledged sequence
number is `ack_num - 1`; if it is new it is added to `acked_packets`,
and when it equals `base` the window base is advanced and the window
size grows by one (capped at 100). -/
def Client.receive_ack (s : Client) (ack_num : Int) : Client :=
  let seq_num := ack_num - 1
  if seq_num ∈ s.acked_packets then s
  else
    let acked := insert seq_num s.acked_packets
    if seq_num = s.base then
      { s with acked_packets := acked
               base := advance_base acked s.next_seq_num s.base
               window_size :=
                 if s.window_size < 100 then s.window_size + 1 else s.window_size }
    else
      { s with acked_packets := acked }

/-- One iteration of the body of `TCPClient.handle_retransmissions`: look
at the head of the retransmission queue; once `next_seq_num` has reached
its due sequence number, pop it; skip it if already acknowledged,
reschedule it on a fresh drop, otherwise resend it and count the
retransmission. -/
def Client.service_retransmission (s : Client) (shouldDrop : Bool) : Client :=
  match s.packets_to_retransmit with
  | [] => s
  | (seq_num, due) :: rest =>
    if due ≤ s.next_seq_num then
      let s := { s with packets_to_retransmit := rest }
      if seq_num ∈ s.acked_packets then s
      else if shouldDrop then
        { s with packets_to_retransmit :=
                   s.packets_to_retransmit ++ [(seq_num, s.next_seq_num + s.retransmit_after)] }
      else
        { s with total_retransmitted := s.total_retransmitted + 1
                 retransmission_counts := fun n =>
                   if n = seq_num then s.retransmission_counts seq_num + 1
                   else s.retransmission_counts n }
    else s

/-- Processing a whole sequence of acknowledgment messages, in arrival
order. -/
def Client.receive_acks (s : Client) (acks : List Int) : Client :=
  acks.foldl Client.receive_ack s

/-! ## Receiver engine state, `server.py` variant (`TCPServer`) -/

/-- The list of integers `lo, lo+1, …, hi-1`, i.e. Python's
`range(lo, hi)` over `Int`. -/
def intRange (lo hi : Int) : List Int :=
  (List.range (hi - lo).toNat).map fun k => lo + (k : Int)

/-- The protocol-relevant mutable state of `server.py`'s `TCPServer`
(visualization time series and timestamps omitted). -/
structure Server where
  received_packets : Finset Int
  missing_packets : Finset Int
  highest_seq_received : Int
  total_packets_received : Nat
  total_packets_expected : Nat
  retransmission_stats : Int → Nat

/-- `server.py` `TCPServer.__init__`: empty tracking sets,
`highest_seq_received = -1`, zero counters. -/
def Server.init : Server :=
  { received_packets := ∅
    missing_packets := ∅
    highest_seq_received := -1
    total_packets_received := 0
    total_packets_expected := 0
    retransmission_stats := fun _ => 0 }

/-- The `for i in range(self.highest_seq_received + 1, seq_num)` loop of
`server.py`'s `process_sequence_number`: each `i` not yet received and
not yet recorded missing is added to `missing_packets`. -/
def Server.scan_gaps (received : Finset Int) (missing : Finset Int)
    (lo hi : Int) : Finset Int :=
  (intRange lo hi).foldl
    (fun m i => if i ∉ received ∧ i ∉ m then insert i m else m) missing

/-- `server.py` `TCPServer.process_sequence_number(seq_num)`: count the
announcement as expected; a duplicate only bumps its retransmission
counter, a new sequence number is recorded received, and if it exceeds
the previous maximum the integers strictly between them that are still
unseen are added to `missing_packets` and the maximum is updated. -/
def Server.process_sequence_number (s : Server) (seq_num : Int) : Server :=
  let s := { s with total_packets_expected := s.total_packets_expected + 1 }
  if seq_num ∈ s.received_packets then
    { s with retransmission_stats := fun n =>
               if n = seq_num then s.retransmission_stats seq_num + 1
               else s.retransmission_stats n }
  else
    let s := { s with total_packets_received := s.total_packets_received + 1
                      received_packets := insert seq_num s.received_packets }
    if s.highest_seq_received < seq_num then
      { s with missing_packets :=
                 Server.scan_gaps s.received_packets s.missing_packets
                   (s.highest_seq_received + 1) seq_num
               highest_seq_received := seq_num }
    else s

/-- Processing a whole sequence of announcements in arrival order,
starting from a fresh `server.py` receiver. -/
def Server.run (seqs : List Int) : Server :=
  seqs.foldl Server.process_sequence_number Server.init

/-- The acknowledgment number `server.py` sends back for an announcement
(`handle_client`, line 155: `{'ack_num': seq_num + 1}`). -/
def Server.ack_num_for (seq_num : Int) : Int := seq_num + 1

/-- The sequence number the client recovers from a received `ack_num`
(`receive_acks`, line 231: `seq_num = ack_num - 1`). -/
def Client.recovered_seq (ack_num : Int) : Int := ack_num - 1

/-- The guard under which `server.py`'s `handle_client` records a periodic
goodput measurement (line 148). -/
def Server.periodic_guard (s : Server) : Prop :=
  s.total_packets_received % 1000 = 0 ∧ 0 < s.total_packets_received

instance (s : Server) : Decidable s.periodic_guard := by
  unfold Server.periodic_guard; infer_instance

/-- The goodput value `server.py` computes (lines 149 and 215):
`len(self.received_packets) / self.total_packets_expected`, in exact
rational arithmetic. -/
def Server.goodput (s : Server) : ℚ :=
  (s.received_packets.card : ℚ) / (s.total_packets_expected : ℚ)

/-- `server.py` `calculate_final_statistics`: when no packets were
processed it only warns and returns (no goodput value); otherwise it
reports the final goodput. -/
def Server.final_goodput (s : Server) : Option ℚ :=
  if s.total_packets_expected = 0 then none
  else some s.goodput

/-! ## Receiver engine state, `server_fixed.py` variant -/

/-- The protocol-relevant mutable state of `server_fixed.py`'s
`TCPServer`.  Here `total_packets_expected` is assigned `seq_num + 1`
(a Python int), so it is modelled as `Int`. -/
structure FixedServer where
  received_packets : Finset Int
  missing_packets : Finset Int
  highest_seq_num : Int
  total_packets_received : Nat
  total_packets_expected : Int

/-- `server_fixed.py` `TCPServer.__init__`. -/
def FixedServer.init : FixedServer :=
  { received_packets := ∅
    missing_packets := ∅
    highest_seq_num := -1
    total_packets_received := 0
    total_packets_expected := 0 }

/-- The gap-scan loop of `server_fixed.py`'s `process_sequence_number`
(its guard checks only `received_packets`, not `missing_packets`). -/
def FixedServer.scan_gaps (received : Finset Int) (missing : Finset Int)
    (lo hi : Int) : Finset Int :=
  (intRange lo hi).foldl
    (fun m i => if i ∉ received then insert i m else m) missing

/-- `server_fixed.py` `TCPServer.process_sequence_number(seq_num)`: a
`None` payload is ignored; otherwise the value is added to
`received_packets` and counted unconditionally (duplicates included),
and on a new maximum `total_packets_expected` becomes `seq_num + 1`,
the intermediate unseen numbers join `missing_packets`, and the maximum
is updated. -/
def FixedServer.process_sequence_number (s : FixedServer) (seq? : Option Int) :
    FixedServer :=
  match seq? with
  | none => s
  | some seq_num =>
    let s := { s with received_packets := insert seq_num s.received_packets
                      total_packets_received := s.total_packets_received + 1 }
    if s.highest_seq_num < seq_num then
      { s with total_packets_expected := seq_num + 1
               missing_packets :=
                 FixedServer.scan_gaps s.received_packets s.missing_packets
                   (s.highest_seq_num + 1) seq_num
               highest_seq_num := seq_num }
    else s

/-- Processing a whole sequence of (present) announcements in arrival
order, starting from a fresh `server_fixed.py` receiver. -/
def FixedServer.run (seqs : List Int) : FixedServer :=
  seqs.foldl (fun s n => s.process_sequence_number (some n)) FixedServer.init

/-- The acknowledgment value `server_fixed.py` sends back for an
announcement (`handle_client`, line 154: `{'ack': seq_num}`). -/
def FixedServer.ack_for (seq_num : Int) : Int := seq_num

/-- The guard under which `server_fixed.py`'s `handle_client` records a
periodic goodput measurement (line 147). -/
def FixedServer.periodic_guard (s : FixedServer) : Prop :=
  s.total_packets_received % 1000 = 0 ∧ 0 < s.total_packets_received

instance (s : FixedServer) : Decidable s.periodic_guard := by
  unfold FixedServer.periodic_guard; infer_instance

/-- The goodput value `server_fixed.py` computes (lines 148 and 214), in
exact rational arithmetic. -/
def FixedServer.goodput (s : FixedServer) : ℚ :=
  (s.received_packets.card : ℚ) / (s.total_packets_expected : ℚ)

/-! ## Interleaved executions of the sender -/

/-- The three kinds of protocol events observed by the sender's shared
state: one iteration of the sending loop (`admit_next`), one iteration of the
retransmission loop (`retr`), and the processing of one acknowledgment
(`ack`).  Each loop iteration runs under `self.lock`, so an execution of
the three client threads is an interleaving of these atomic events; the
boolean carried by `admit_next`/`retr` is the outcome of that event's
`random.random() < drop_probability` draw. -/
inductive ClientEvent where
  | admit_next (shouldDrop : Bool)
  | retr (shouldDrop : Bool)
  | ack (ack_num : Int)

/-- Effect of one atomic event on the sender state. -/
def Client.step (s : Client) : ClientEvent → Client
  | ClientEvent.admit_next d => s.admit_next d
  | ClientEvent.retr d => s.service_retransmission d
  | ClientEvent.ack n => s.receive_ack n

/-- A whole interleaved execution of the sender, as a fold over its
event trace. -/
def Client.run_events (s : Client) (evs : List ClientEvent) : Client :=
  evs.foldl Client.step s

/-- The exit condition of the sending loop of `TCPClient.start`
(line 143): the loop keeps polling while `total_sent < total_packets`
(and `running`); only once this guard fails does the client move on to
the wait-for-ACKs phase and then terminate. -/
def Client.send_loop_done (s : Client) : Prop :=
  ¬ s.total_sent < s.total_packets

instance (s : Client) : Decidable s.send_loop_done := by
  unfold Client.send_loop_done; infer_instance

/-- One scheduler step of the loss-free closed loop between the client
and the `server.py` receiver: while the window is open and packets
remain, the client admits the next packet (never dropped, since
`random.random() < 0` is always false) and the receiver immediately
queues the acknowledgment `seq_num + 1` for it; once the window is
closed (or all packets are admitted) the client processes the oldest
pending acknowledgment. -/
def lossFreeStep : Client × List Int → Client × List Int
  | (c, pending) =>
    if c.next_seq_num < c.base + (c.window_size : Int) ∧
       c.next_seq_num < (c.total_packets : Int) then
      (c.admit_next false, pending ++ [Server.ack_num_for c.next_seq_num])
    else
      match pending with
      | [] => (c, [])
      | a :: rest => (c.receive_ack a, rest)

/-- Iterating the loss-free closed loop a given number of steps from the
freshly initialized client. -/
def lossFreeRun (window_size total_packets : Nat) : Nat → Client × List Int
  | 0 => (Client.init window_size total_packets 100, [])
  | n + 1 => lossFreeStep (lossFreeRun window_size total_packets n)

/-! ## Helper lemmas: window-base advancement -/

theorem le_advance_base_iter (acked : Finset Int) (next : Int)
    (fuel : Nat) (base : Int) :
    base ≤ advance_base_iter acked next fuel base := by
  induction fuel generalizing base with
  | zero => exact le_refl base
  | succ fuel ih =>
    rw [advance_base_iter]
    split
    · have := ih (base + 1)
      omega
    · exact le_refl base

theorem advance_base_iter_le (acked : Finset Int) (next : Int)
    (fuel : Nat) (base : Int) (h : base ≤ next) :
    advance_base_iter acked next fuel base ≤ next := by
  induction fuel generalizing base with
  | zero => exact h
  | succ fuel ih =>
    rw [advance_base_iter]
    split
    · exact ih (base + 1) (by omega)
    · exact h

theorem le_advance_base (acked : Finset Int) (next base : Int) :
    base ≤ advance_base acked next base :=
  le_advance_base_iter acked next _ base

theorem advance_base_le (acked : Finset Int) (next base : Int)
    (h : base ≤ next) : advance_base acked next base ≤ next :=
  advance_base_iter_le acked next _ base h

/-! ## Helper lemmas: single acknowledgment-processing steps -/

theorem receive_ack_base_mono (s : Client) (a : Int) :
    s.base ≤ (s.receive_ack a).base := by
  simp only [Client.receive_ack]
  split
  · exact le_refl _
  · split
    · exact le_advance_base _ _ _
    · exact le_refl _

theorem receive_ack_next_eq (s : Client) (a : Int) :
    (s.receive_ack a).next_seq_num = s.next_seq_num := by
  simp only [Client.receive_ack]
  split
  · rfl
  · split <;> rfl

theorem receive_ack_base_le_next (s : Client) (a : Int)
    (h : s.base ≤ s.next_seq_num) :
    (s.receive_ack a).base ≤ (s.receive_ack a).next_seq_num := by
  simp only [Client.receive_ack]
  split
  · exact h
  · split
    · exact advance_base_le _ _ _ h
    · exact h

theorem receive_ack_window_mono (s : Client) (a : Int) :
    s.window_size ≤ (s.receive_ack a).window_size := by
  simp only [Client.receive_ack]
  split
  · exact le_refl _
  · split
    · show s.window_size ≤ if s.window_size < 100 then s.window_size + 1 else s.window_size
      split <;> omega
    · exact le_refl _

theorem receive_ack_window_le (s : Client) (a : Int) (h : s.window_size ≤ 100) :
    (s.receive_ack a).window_size ≤ 100 := by
  simp only [Client.receive_ack]
  split
  · exact h
  · split
    · show (if s.window_size < 100 then s.window_size + 1 else s.window_size) ≤ 100
      split <;> omega
    · exact h

theorem receive_ack_of_mem (s : Client) (a : Int)
    (h : a - 1 ∈ s.acked_packets) : s.receive_ack a = s := by
  simp only [Client.receive_ack]
  rw [if_pos h]

theorem mem_acked_receive_ack (s : Client) (a : Int) :
    a - 1 ∈ (s.receive_ack a).acked_packets := by
  simp only [Client.receive_ack]
  split
  · assumption
  · split
    · exact Finset.mem_insert_self _ _
    · exact Finset.mem_insert_self _ _

/-! ## C5: the window base is non-decreasing and never exceeds
`next_seq_num` -/

/-- C5.  For every sequence of acknowledgment messages delivered to the
sender — in any order and with any duplication — starting from any sender
state satisfying `base ≤ next_seq_num`, the base after processing them
is at least the base before (applied to every suffix, this gives that
`base` is non-decreasing at every step), and `base ≤ next_seq_num`
still holds afterwards. -/
theorem claim5_base_monotone_le_next (s : Client) (acks : List Int)
    (h : s.base ≤ s.next_seq_num) :
    s.base ≤ (s.receive_acks acks).base ∧
    (s.receive_acks acks).base ≤ (s.receive_acks acks).next_seq_num := by
  induction acks generalizing s with
  | nil => exact ⟨le_refl _, h⟩
  | cons a rest ih =>
    have h1 := receive_ack_base_mono s a
    have h2 := receive_ack_base_le_next s a h
    have h3 := ih (s.receive_ack a) h2
    simp only [Client.receive_acks, List.foldl_cons] at h3 ⊢
    exact ⟨le_trans h1 h3.1, h3.2⟩

/-- Witness for C5: the freshly initialized client (base `0`,
`next_seq_num = 0`) fed the concrete acknowledgment stream
`[1, 2, 2, 5]`. -/
theorem claim5_base_monotone_le_next_witness :
    (Client.init 4 10 100).base ≤
      ((Client.init 4 10 100).receive_acks [1, 2, 2, 5]).base ∧
    ((Client.init 4 10 100).receive_acks [1, 2, 2, 5]).base ≤
      ((Client.init 4 10 100).receive_acks [1, 2, 2, 5]).next_seq_num :=
  claim5_base_monotone_le_next (Client.init 4 10 100) [1, 2, 2, 5] (by decide)

/-! ## C6: the window size never decreases and never exceeds 100 -/

/-- C6.  For every sequence of acknowledgments delivered to a sender
whose window size does not exceed the configured maximum of 100, the
window size after processing them is at least the window size before
(so, applied to every suffix, non-decreasing at each step) and still at
most 100. -/
theorem claim6_window_monotone_bounded (s : Client) (acks : List Int)
    (h : s.window_size ≤ 100) :
    s.window_size ≤ (s.receive_acks acks).window_size ∧
    (s.receive_acks acks).window_size ≤ 100 := by
  induction acks generalizing s with
  | nil => exact ⟨le_refl _, h⟩
  | cons a rest ih =>
    have h1 := receive_ack_window_mono s a
    have h2 := receive_ack_window_le s a h
    have h3 := ih (s.receive_ack a) h2
    simp only [Client.receive_acks, List.foldl_cons] at h3 ⊢
    exact ⟨le_trans h1 h3.1, h3.2⟩

/-- Witness for C6: the client initialized with window size 4 fed the
concrete acknowledgment stream `[1, 2, 3]`. -/
theorem claim6_window_monotone_bounded_witness :
    (Client.init 4 10 100).window_size ≤
      ((Client.init 4 10 100).receive_acks [1, 2, 3]).window_size ∧
    ((Client.init 4 10 100).receive_acks [1, 2, 3]).window_size ≤ 100 :=
  claim6_window_monotone_bounded (Client.init 4 10 100) [1, 2, 3] (by decide)

/-! ## C8: acknowledgment processing is idempotent -/

/-- C8.  Processing the same acknowledgment twice in succession leaves
the sender state — every field, including `base`, `next_seq_num`,
`window_size`, `acked_packets` and all counters — identical to
processing it once, for every sender state and every acknowledgment
number. -/
theorem claim8_receive_ack_idempotent (s : Client) (ack_num : Int) :
    (s.receive_ack ack_num).receive_ack ack_num = s.receive_ack ack_num :=
  receive_ack_of_mem _ _ (mem_acked_receive_ack s ack_num)

/-! ## C1: the loss-free 10-packet scenario -/

/-- Counterexample to C1.  In the loss-free closed-loop run with drop
probability 0, initial window size 4 and 10 total packets (steady state
reached after 20 scheduler steps), all 10 sequence numbers are
acknowledged and nothing is retransmitted — but the final window size is
14, not the initial 4: the window grows by one on every acknowledgment
that advances the base, which drops are not needed to trigger. -/
theorem claim1_counterexample :
    (lossFreeRun 4 10 20).1.acked_packets = ({0,1,2,3,4,5,6,7,8,9} : Finset Int) ∧
    (lossFreeRun 4 10 20).1.total_retransmitted = 0 ∧
    (lossFreeRun 4 10 20).1.window_size ≠ 4 := by
  refine ⟨by decide, by decide, by decide⟩

/-- C1, amended.  In the loss-free run (drop probability 0, window 4,
10 packets, the receiver acknowledging every announcement) all 10
sequence numbers end up acknowledged, every packet is sent exactly once
with zero drops and zero retransmissions, and the final window size is
`4 + 10 = 14`: the initial size plus one increment for each of the 10
base-advancing acknowledgments. -/
theorem claim1_amended_lossfree_run :
    (lossFreeRun 4 10 20).1.acked_packets = ({0,1,2,3,4,5,6,7,8,9} : Finset Int) ∧
    (lossFreeRun 4 10 20).1.acked_packets.card = 10 ∧
    (lossFreeRun 4 10 20).1.total_sent = 10 ∧
    (lossFreeRun 4 10 20).1.total_dropped = 0 ∧
    (lossFreeRun 4 10 20).1.total_retransmitted = 0 ∧
    (lossFreeRun 4 10 20).1.window_size = 4 + 10 ∧
    (lossFreeRun 4 10 20).1.base = 10 := by
  refine ⟨by decide, by decide, by decide, by decide, by decide, by decide, by decide⟩

/-! ## C2: what the acknowledgment value carries -/

/-- Counterexample to C2.  After the `server.py` receiver processes the
single announcement `3`, the acknowledgment it emits carries `4`, yet
sequence number `1` — strictly below the carried value — is not known to
the receiver (its received set is exactly `{3}`).  So the carried value
does not acknowledge that all smaller sequence numbers are known. -/
theorem claim2_counterexample :
    Server.ack_num_for 3 = 4 ∧ (1 : Int) < 4 ∧
    (Server.run [3]).received_packets = ({3} : Finset Int) ∧
    (1 : Int) ∉ (Server.run [3]).received_packets ∧
    FixedServer.ack_for 3 ≠ 3 + 1 := by
  refine ⟨by decide, by decide, by decide, by decide, by decide⟩

/-- C2, amended.  Every acknowledgment emitted by the `server.py`
receiver carries the announced sequence number plus one, and the sender
recovers the announced number as the carried value minus one; the
`server_fixed.py` variant instead carries the announced number itself
(so the sender's `ack - 1` decoding would be off by one against it).
No cumulative meaning attaches to the carried value. -/
theorem claim2_amended_ack_conventions (seq_num : Int) :
    Server.ack_num_for seq_num = seq_num + 1 ∧
    Client.recovered_seq (Server.ack_num_for seq_num) = seq_num ∧
    FixedServer.ack_for seq_num = seq_num := by
  refine ⟨rfl, ?_, rfl⟩
  show seq_num + 1 - 1 = seq_num
  omega

/-! ## C3: termination of the sending loop
Field-stability lemmas: once every packet has been admitted
(`total_packets ≤ next_seq_num`), no event changes `total_sent`,
`total_packets` or `next_seq_num` — retransmissions count into
`total_retransmitted` instead. -/

theorem receive_ack_sent_eq (s : Client) (a : Int) :
    (s.receive_ack a).total_sent = s.total_sent ∧
    (s.receive_ack a).total_packets = s.total_packets := by
  simp only [Client.receive_ack]
  split
  · exact ⟨rfl, rfl⟩
  · split <;> exact ⟨rfl, rfl⟩

theorem service_retransmission_sent_eq (s : Client) (d : Bool) :
    (s.service_retransmission d).total_sent = s.total_sent ∧
    (s.service_retransmission d).total_packets = s.total_packets ∧
    (s.service_retransmission d).next_seq_num = s.next_seq_num := by
  cases hq : s.packets_to_retransmit with
  | nil => simp [Client.service_retransmission, hq]
  | cons head rest =>
    obtain ⟨seq, due⟩ := head
    simp only [Client.service_retransmission, hq]
    split
    · split
      · simp
      · split <;> simp
    · simp

theorem admit_next_of_all_admitted (s : Client) (d : Bool)
    (h : (s.total_packets : Int) ≤ s.next_seq_num) : s.admit_next d = s := by
  unfold Client.admit_next
  rw [if_neg]
  intro hc
  omega

theorem step_stable (s : Client) (ev : ClientEvent)
    (h : (s.total_packets : Int) ≤ s.next_seq_num) :
    (s.step ev).total_sent = s.total_sent ∧
    (s.step ev).total_packets = s.total_packets ∧
    (s.step ev).next_seq_num = s.next_seq_num := by
  cases ev with
  | admit_next d =>
    have e : s.step (ClientEvent.admit_next d) = s := admit_next_of_all_admitted s d h
    rw [e]
    exact ⟨rfl, rfl, rfl⟩
  | retr d => exact service_retransmission_sent_eq s d
  | ack n =>
    exact ⟨(receive_ack_sent_eq s n).1, (receive_ack_sent_eq s n).2,
      receive_ack_next_eq s n⟩

theorem run_events_stable (s : Client) (evs : List ClientEvent)
    (h : (s.total_packets : Int) ≤ s.next_seq_num) :
    (s.run_events evs).total_sent = s.total_sent ∧
    (s.run_events evs).total_packets = s.total_packets ∧
    (s.run_events evs).next_seq_num = s.next_seq_num := by
  induction evs generalizing s with
  | nil => exact ⟨rfl, rfl, rfl⟩
  | cons ev rest ih =>
    have h1 := step_stable s ev h
    have h2 := ih (s.step ev) (by rw [h1.2.1, h1.2.2]; exact h)
    simp only [Client.run_events, List.foldl_cons] at h2 ⊢
    exact ⟨h2.1.trans h1.1, (h2.2.1).trans h1.2.1, (h2.2.2).trans h1.2.2⟩

/-- The interleaved execution of C3's failing input: one packet in
total (`total_packets = 1`, `retransmit_after = 1`, window 4), the
initial emission of sequence number 0 is dropped, its retransmission
succeeds, and the receiver's acknowledgment `0 + 1` is processed. -/
def drop_scenario_final : Client :=
  Client.run_events (Client.init 4 1 1)
    [ClientEvent.admit_next true, ClientEvent.retr false,
     ClientEvent.ack (Server.ack_num_for 0)]

/-- C3 (exhibiting the code bug).  In the dropped-packet scenario every
sequence number has been admitted (`next_seq_num = total_packets`, so
admission has stopped) and the number of acknowledged records equals
`total_packets` — yet the guard of the sending loop
(`total_sent < total_packets`) still holds, and it continues to hold
after every possible further sequence of events, because a dropped
initial emission never increments `total_sent` (its successful
retransmission increments `total_retransmitted` instead).  The client
therefore never leaves the sending loop, never reaches the
wait-for-ACKs phase, and never becomes terminal. -/
theorem claim3_drop_run_never_terminal :
    drop_scenario_final.acked_packets.card = drop_scenario_final.total_packets ∧
    drop_scenario_final.next_seq_num = (drop_scenario_final.total_packets : Int) ∧
    drop_scenario_final.total_sent = 0 ∧
    drop_scenario_final.total_retransmitted = 1 ∧
    drop_scenario_final.admit_next true = drop_scenario_final ∧
    drop_scenario_final.admit_next false = drop_scenario_final ∧
    ¬ drop_scenario_final.send_loop_done ∧
    ∀ evs : List ClientEvent,
      ¬ (drop_scenario_final.run_events evs).send_loop_done := by
  refine ⟨by decide, by decide, by decide, by decide,
    admit_next_of_all_admitted _ true (by decide),
    admit_next_of_all_admitted _ false (by decide), by decide, ?_⟩
  intro evs
  have h := run_events_stable drop_scenario_final evs (by decide)
  simp only [Client.send_loop_done, h.1, h.2.1, not_not]
  decide

/-! ## C4: the announcements 0, 1, 3 scenario -/

/-- Counterexample to C4.  After a fresh receiver processes the
announcements `0, 1, 3`, its gap set is indeed `{2}`, but its goodput
is not `2/3` in either variant: `server.py` has received 3 of 3
announcements counted expected (goodput `1`), and `server_fixed.py`
has received 3 of `highest + 1 = 4` expected (goodput `3/4`). -/
theorem claim4_counterexample :
    (Server.run [0, 1, 3]).missing_packets = ({2} : Finset Int) ∧
    (Server.run [0, 1, 3]).goodput ≠ (2/3 : ℚ) ∧
    (FixedServer.run [0, 1, 3]).missing_packets = ({2} : Finset Int) ∧
    (FixedServer.run [0, 1, 3]).goodput ≠ (2/3 : ℚ) := by
  have hs1 : (Server.run [0, 1, 3]).received_packets.card = 3 := by decide
  have hs2 : (Server.run [0, 1, 3]).total_packets_expected = 3 := by decide
  have hf1 : (FixedServer.run [0, 1, 3]).received_packets.card = 3 := by decide
  have hf2 : (FixedServer.run [0, 1, 3]).total_packets_expected = 4 := by decide
  refine ⟨by decide, ?_, by decide, ?_⟩
  · unfold Server.goodput
    rw [hs1, hs2]
    norm_num
  · unfold FixedServer.goodput
    rw [hf1, hf2]
    norm_num

/-- C4, amended.  After a fresh receiver processes announcements
`0, 1, 3` in that order, its gap set equals `{2}` in both variants; its
goodput at that point is `3/3 = 1` in the `server.py` variant (expected
counts processed announcements) and `3/4` in the `server_fixed.py`
variant (expected is `highest + 1`).  If announcement `2` then arrives,
`2` is marked received and the goodput becomes `1`, but `2` is never
removed from the gap set. -/
theorem claim4_amended_gap_scenario :
    (Server.run [0, 1, 3]).missing_packets = ({2} : Finset Int) ∧
    (FixedServer.run [0, 1, 3]).missing_packets = ({2} : Finset Int) ∧
    (Server.run [0, 1, 3]).goodput = 1 ∧
    (FixedServer.run [0, 1, 3]).goodput = (3/4 : ℚ) ∧
    (2 : Int) ∈ (Server.run [0, 1, 3, 2]).received_packets ∧
    (2 : Int) ∈ (Server.run [0, 1, 3, 2]).missing_packets ∧
    (Server.run [0, 1, 3, 2]).goodput = 1 ∧
    (2 : Int) ∈ (FixedServer.run [0, 1, 3, 2]).received_packets ∧
    (2 : Int) ∈ (FixedServer.run [0, 1, 3, 2]).missing_packets ∧
    (FixedServer.run [0, 1, 3, 2]).goodput = 1 := by
  have hs1 : (Server.run [0, 1, 3]).received_packets.card = 3 := by decide
  have hs2 : (Server.run [0, 1, 3]).total_packets_expected = 3 := by decide
  have hf1 : (FixedServer.run [0, 1, 3]).received_packets.card = 3 := by decide
  have hf2 : (FixedServer.run [0, 1, 3]).total_packets_expected = 4 := by decide
  have hs1' : (Server.run [0, 1, 3, 2]).received_packets.card = 4 := by decide
  have hs2' : (Server.run [0, 1, 3, 2]).total_packets_expected = 4 := by decide
  have hf1' : (FixedServer.run [0, 1, 3, 2]).received_packets.card = 4 := by decide
  have hf2' : (FixedServer.run [0, 1, 3, 2]).total_packets_expected = 4 := by decide
  refine ⟨by decide, by decide, ?_, ?_, by decide, by decide, ?_, by decide,
    by decide, ?_⟩
  · unfold Server.goodput; rw [hs1, hs2]; norm_num
  · unfold FixedServer.goodput; rw [hf1, hf2]; norm_num
  · unfold Server.goodput; rw [hs1', hs2']; norm_num
  · unfold FixedServer.goodput; rw [hf1', hf2']; norm_num

/-! ## Invariants of the `server.py` receiver -/

theorem process_of_mem (s : Server) (n : Int) (hm : n ∈ s.received_packets) :
    (s.process_sequence_number n).received_packets = s.received_packets ∧
    (s.process_sequence_number n).total_packets_received = s.total_packets_received ∧
    (s.process_sequence_number n).total_packets_expected = s.total_packets_expected + 1 ∧
    (s.process_sequence_number n).retransmission_stats n = s.retransmission_stats n + 1 := by
  unfold Server.process_sequence_number
  rw [if_pos hm]
  refine ⟨rfl, rfl, rfl, ?_⟩
  simp

theorem process_of_not_mem (s : Server) (n : Int) (hm : n ∉ s.received_packets) :
    (s.process_sequence_number n).received_packets = insert n s.received_packets ∧
    (s.process_sequence_number n).total_packets_received = s.total_packets_received + 1 ∧
    (s.process_sequence_number n).total_packets_expected = s.total_packets_expected + 1 := by
  unfold Server.process_sequence_number
  rw [if_neg hm]
  dsimp only
  split <;> exact ⟨rfl, rfl, rfl⟩

/-- The inductive invariant of the `server.py` receiver:
`total_packets_received` counts exactly the distinct sequence numbers
received, it never exceeds `total_packets_expected`, and once anything
has been counted expected the received set is non-empty. -/
def Server.Inv (s : Server) : Prop :=
  s.total_packets_received = s.received_packets.card ∧
  s.total_packets_received ≤ s.total_packets_expected ∧
  (0 < s.total_packets_expected → s.received_packets.Nonempty)

theorem Server.inv_init : Server.Inv Server.init := by
  refine ⟨rfl, le_refl 0, ?_⟩
  intro h
  exact absurd h (by decide)

theorem Server.inv_step (s : Server) (n : Int) (h : s.Inv) :
    (s.process_sequence_number n).Inv := by
  obtain ⟨h1, h2, _⟩ := h
  by_cases hm : n ∈ s.received_packets
  · obtain ⟨e1, e2, e3, _⟩ := process_of_mem s n hm
    refine ⟨?_, ?_, ?_⟩
    · rw [e1, e2]; exact h1
    · rw [e2, e3]; omega
    · intro _
      rw [e1]
      exact ⟨n, hm⟩
  · obtain ⟨e1, e2, e3⟩ := process_of_not_mem s n hm
    refine ⟨?_, ?_, ?_⟩
    · rw [e1, e2, Finset.card_insert_of_not_mem hm, h1]
    · rw [e2, e3]; omega
    · intro _
      rw [e1]
      exact Finset.insert_nonempty n _

theorem Server.inv_fold (s : Server) (seqs : List Int) (h : s.Inv) :
    Server.Inv (seqs.foldl Server.process_sequence_number s) := by
  induction seqs generalizing s with
  | nil => exact h
  | cons n rest ih => exact ih (s.process_sequence_number n) (Server.inv_step s n h)

theorem Server.inv_run (seqs : List Int) : Server.Inv (Server.run seqs) :=
  Server.inv_fold Server.init seqs Server.inv_init

/-! ## Invariants of the `server_fixed.py` receiver -/

theorem fixed_process_of_lt (s : FixedServer) (n : Int)
    (h : s.highest_seq_num < n) :
    (s.process_sequence_number (some n)).received_packets = insert n s.received_packets ∧
    (s.process_sequence_number (some n)).total_packets_received = s.total_packets_received + 1 ∧
    (s.process_sequence_number (some n)).total_packets_expected = n + 1 ∧
    (s.process_sequence_number (some n)).highest_seq_num = n := by
  unfold FixedServer.process_sequence_number
  dsimp only
  rw [if_pos h]
  exact ⟨rfl, rfl, rfl, rfl⟩

theorem fixed_process_of_ge (s : FixedServer) (n : Int)
    (h : ¬ s.highest_seq_num < n) :
    (s.process_sequence_number (some n)).received_packets = insert n s.received_packets ∧
    (s.process_sequence_number (some n)).total_packets_received = s.total_packets_received + 1 ∧
    (s.process_sequence_number (some n)).total_packets_expected = s.total_packets_expected ∧
    (s.process_sequence_number (some n)).highest_seq_num = s.highest_seq_num := by
  unfold FixedServer.process_sequence_number
  dsimp only
  rw [if_neg h]
  exact ⟨rfl, rfl, rfl, rfl⟩

/-- The inductive invariant of the `server_fixed.py` receiver over runs
whose announcements are genuine (non-negative) sequence numbers:
`total_packets_expected` is exactly `highest_seq_num + 1`, the highest
starts at `-1` and never drops below it, every received number lies in
`[0, highest_seq_num]`, and the received set is empty only in the
pristine state. -/
def FixedServer.Inv (s : FixedServer) : Prop :=
  s.total_packets_expected = s.highest_seq_num + 1 ∧
  -1 ≤ s.highest_seq_num ∧
  s.received_packets ⊆ Finset.Icc 0 s.highest_seq_num ∧
  (s.received_packets.Nonempty ∨
    (s.total_packets_received = 0 ∧ s.highest_seq_num = -1))

theorem FixedServer.fixed_inv_init : FixedServer.Inv FixedServer.init := by
  refine ⟨by decide, by decide, ?_, Or.inr ⟨rfl, rfl⟩⟩
  intro x hx
  exact absurd hx (Finset.not_mem_empty x)

theorem FixedServer.fixed_inv_step (s : FixedServer) (n : Int) (hn : 0 ≤ n)
    (h : s.Inv) : (s.process_sequence_number (some n)).Inv := by
  obtain ⟨h1, h2, h3, _⟩ := h
  by_cases hlt : s.highest_seq_num < n
  · obtain ⟨e1, _, e3, e4⟩ := fixed_process_of_lt s n hlt
    refine ⟨by rw [e3, e4], by rw [e4]; omega, ?_, ?_⟩
    · rw [e1, e4]
      rw [Finset.insert_subset_iff]
      refine ⟨Finset.mem_Icc.mpr ⟨hn, le_refl n⟩, ?_⟩
      exact h3.trans (Finset.Icc_subset_Icc_right (by omega))
    · rw [e1]
      exact Or.inl (Finset.insert_nonempty n _)
  · obtain ⟨e1, _, e3, e4⟩ := fixed_process_of_ge s n hlt
    refine ⟨by rw [e3, e4]; exact h1, by rw [e4]; exact h2, ?_, ?_⟩
    · rw [e1, e4]
      rw [Finset.insert_subset_iff]
      exact ⟨Finset.mem_Icc.mpr ⟨hn, by omega⟩, h3⟩
    · rw [e1]
      exact Or.inl (Finset.insert_nonempty n _)

theorem FixedServer.fixed_inv_fold (s : FixedServer) (seqs : List Int)
    (hn : ∀ a ∈ seqs, 0 ≤ a) (h : s.Inv) :
    FixedServer.Inv
      (seqs.foldl (fun t n => t.process_sequence_number (some n)) s) := by
  induction seqs generalizing s with
  | nil => exact h
  | cons n rest ih =>
    exact ih (s.process_sequence_number (some n))
      (fun a ha => hn a (List.mem_cons_of_mem n ha))
      (FixedServer.fixed_inv_step s n (hn n (List.mem_cons_self n rest)) h)

theorem FixedServer.fixed_inv_run (seqs : List Int) (hn : ∀ a ∈ seqs, 0 ≤ a) :
    FixedServer.Inv (FixedServer.run seqs) :=
  FixedServer.fixed_inv_fold FixedServer.init seqs hn FixedServer.fixed_inv_init

/-- In the `server_fixed.py` receiver the received set cannot outgrow
the expected count, over runs of genuine sequence numbers: its
cardinality is bounded by the size of `[0, highest]`, which is the
expected count. -/
theorem FixedServer.card_le_expected (s : FixedServer) (h : s.Inv) :
    (s.received_packets.card : Int) ≤ s.total_packets_expected := by
  obtain ⟨h1, h2, h3, _⟩ := h
  have hc : s.received_packets.card ≤ (Finset.Icc (0 : Int) s.highest_seq_num).card :=
    Finset.card_le_card h3
  rw [Int.card_Icc] at hc
  have := Int.toNat_of_nonneg (show (0 : Int) ≤ s.highest_seq_num + 1 - 0 by omega)
  omega

theorem div_unit_aux (a b : ℚ) (ha : 0 < a) (hb : 0 < b) (hab : a ≤ b) :
    0 < a / b ∧ a / b ≤ 1 :=
  ⟨div_pos ha hb, (div_le_one hb).mpr hab⟩

/-! ## C9: the received counter matches the received set (`server.py`) -/

theorem run_append_singleton (seqs : List Int) (n : Int) :
    Server.run (seqs ++ [n]) = (Server.run seqs).process_sequence_number n := by
  unfold Server.run
  rw [List.foldl_append]
  rfl

/-- C9.  In the `server.py` receiver, after processing any sequence of
announcements, `total_packets_received` equals the cardinality of
`received_packets`; moreover, processing a duplicate announcement next
leaves `total_packets_received` unchanged and instead increments that
sequence number's retransmission-observed counter. -/
theorem claim9_received_count_matches_set (seqs : List Int) :
    (Server.run seqs).total_packets_received =
      (Server.run seqs).received_packets.card ∧
    ∀ n ∈ (Server.run seqs).received_packets,
      (Server.run (seqs ++ [n])).total_packets_received =
        (Server.run seqs).total_packets_received ∧
      (Server.run (seqs ++ [n])).retransmission_stats n =
        (Server.run seqs).retransmission_stats n + 1 := by
  refine ⟨(Server.inv_run seqs).1, ?_⟩
  intro n hn
  obtain ⟨_, e2, _, e4⟩ := process_of_mem (Server.run seqs) n hn
  rw [run_append_singleton seqs n]
  exact ⟨e2, e4⟩

/-! ## C7: goodput is the exact ratio, or not-available at zero -/

/-- C7.  For every run of the `server.py` receiver: with a non-zero
expected count, the connection-close computation reports exactly
`receivedCount / expectedCount` (as an exact rational), and the
periodically recorded goodput value equals that same ratio; with a zero
expected count the close computation reports nothing (it returns before
dividing, so it cannot crash); and the guard of the periodic
recomputation implies the expected count is non-zero, so the periodic
division can never divide by zero either. -/
theorem claim7_goodput_exact_or_unavailable (seqs : List Int) :
    ((Server.run seqs).total_packets_expected = 0 →
      (Server.run seqs).final_goodput = none) ∧
    (0 < (Server.run seqs).total_packets_expected →
      (Server.run seqs).final_goodput =
        some (((Server.run seqs).total_packets_received : ℚ) /
              ((Server.run seqs).total_packets_expected : ℚ)) ∧
      (Server.run seqs).goodput =
        ((Server.run seqs).total_packets_received : ℚ) /
          ((Server.run seqs).total_packets_expected : ℚ)) ∧
    ((Server.run seqs).periodic_guard →
      0 < (Server.run seqs).total_packets_expected) := by
  obtain ⟨h1, h2, _⟩ := Server.inv_run seqs
  refine ⟨?_, ?_, ?_⟩
  · intro h0
    unfold Server.final_goodput
    rw [if_pos h0]
  · intro hpos
    have hne : (Server.run seqs).total_packets_expected ≠ 0 := by omega
    have hg : (Server.run seqs).goodput =
        ((Server.run seqs).total_packets_received : ℚ) /
          ((Server.run seqs).total_packets_expected : ℚ) := by
      unfold Server.goodput
      rw [h1]
    refine ⟨?_, hg⟩
    unfold Server.final_goodput
    rw [if_neg hne, hg]
  · rintro ⟨_, hposc⟩
    omega

/-! ## C10: the received set never outgrows the expected count, and
goodput lands in `(0, 1]` -/

/-- C10.  Over every run of genuine (non-negative) announcements, in
both receiver variants the cardinality of the received set never
exceeds the expected count; consequently every goodput value either
variant ever computes — at the periodic measurement points and at the
guarded connection-close computation — is a rational in `(0, 1]`. -/
theorem claim10_goodput_in_unit_interval (seqs : List Int)
    (hpos : ∀ a ∈ seqs, 0 ≤ a) :
    (Server.run seqs).received_packets.card ≤
      (Server.run seqs).total_packets_expected ∧
    (((FixedServer.run seqs).received_packets.card : Int) ≤
      (FixedServer.run seqs).total_packets_expected) ∧
    ((Server.run seqs).periodic_guard →
      0 < (Server.run seqs).goodput ∧ (Server.run seqs).goodput ≤ 1) ∧
    (0 < (Server.run seqs).total_packets_expected →
      0 < (Server.run seqs).goodput ∧ (Server.run seqs).goodput ≤ 1) ∧
    ((FixedServer.run seqs).periodic_guard →
      0 < (FixedServer.run seqs).goodput ∧ (FixedServer.run seqs).goodput ≤ 1) ∧
    ((FixedServer.run seqs).total_packets_expected ≠ 0 →
      0 < (FixedServer.run seqs).goodput ∧ (FixedServer.run seqs).goodput ≤ 1) := by
  obtain ⟨h1, h2, h3⟩ := Server.inv_run seqs
  have hfinv := FixedServer.fixed_inv_run seqs hpos
  have hB := FixedServer.card_le_expected (FixedServer.run seqs) hfinv
  obtain ⟨f1, f2, f3, f4⟩ := hfinv
  have hA : (Server.run seqs).received_packets.card ≤
      (Server.run seqs).total_packets_expected := by omega
  have hSgood : 0 < (Server.run seqs).total_packets_expected →
      0 < (Server.run seqs).goodput ∧ (Server.run seqs).goodput ≤ 1 := by
    intro hexp
    have hcard : 0 < (Server.run seqs).received_packets.card :=
      Finset.card_pos.mpr (h3 hexp)
    exact div_unit_aux _ _ (by exact_mod_cast hcard) (by exact_mod_cast hexp)
      (by exact_mod_cast hA)
  have hFne : (FixedServer.run seqs).received_packets.Nonempty →
      0 < (FixedServer.run seqs).total_packets_expected := by
    rintro ⟨x, hx⟩
    have := Finset.mem_Icc.mp (f3 hx)
    omega
  have hFgood : (FixedServer.run seqs).received_packets.Nonempty →
      0 < (FixedServer.run seqs).goodput ∧ (FixedServer.run seqs).goodput ≤ 1 := by
    intro hne
    have hcard : 0 < (FixedServer.run seqs).received_packets.card :=
      Finset.card_pos.mpr hne
    have hexp := hFne hne
    exact div_unit_aux _ _ (by exact_mod_cast hcard) (by exact_mod_cast hexp)
      (by exact_mod_cast hB)
  refine ⟨hA, hB, ?_, hSgood, ?_, ?_⟩
  · rintro ⟨_, hposc⟩
    exact hSgood (by omega)
  · rintro ⟨_, hposc⟩
    refine hFgood ?_
    rcases f4 with hne | ⟨hc, _⟩
    · exact hne
    · omega
  · intro hexp
    refine hFgood ?_
    rcases f4 with hne | ⟨_, hh⟩
    · exact hne
    · rw [f1, hh] at hexp
      simp at hexp

/-- Witness for C10: the concrete announcement stream `[5]`, on which
both bounds are discharged at an explicit input. -/
theorem claim10_goodput_in_unit_interval_witness :
    (Server.run [5]).received_packets.card ≤
      (Server.run [5]).total_packets_expected ∧
    (((FixedServer.run [5]).received_packets.card : Int) ≤
      (FixedServer.run [5]).total_packets_expected) :=
  ⟨(claim10_goodput_in_unit_interval [5]
      (fun a ha => by rw [List.mem_singleton] at ha; omega)).1,
   (claim10_goodput_in_unit_interval [5]
      (fun a ha => by rw [List.mem_singleton] at ha; omega)).2.1⟩

end TCPSlidingWindow
